import Mathlib

/-!
Verification development for the document tokenization, location-aware chunking,
and scoped hybrid-search subsystem of the voicerag backend.

The definitions below are shallow embeddings of the Python sources:
  * `app/backend/document_processing/pdf_processor.py`
    (`_extract_with_ocr`, `extract_pdf_text`, `create_intelligent_chunks_with_ai`,
     `direct_chunk`),
  * `app/backend/document_indexer.py`
    (`DocumentIndexer.generate_embedding`, `index_document`, `search_documents`,
     `list_indexed_pdfs`) together with the `analyze_pdf` dispatch in
    `app/backend/app.py`,
  * `app/backend/enhanced_pdf_processor.py`
    (`TokenizedPDFProcessor._extract_text_with_positions`, `_create_token_chunks`,
     `_find_chunk_lines`, `_calculate_chunk_bbox`),
  * `app/backend/document_processing/tasks.py` (`process_pdf_task` status handling).

External effects are made explicit: the remote search backend, the remote
embedding service, the OCR engine, the tokenizer and hashing are passed in as
function parameters or as already-produced per-page results; machine floats are
modelled as rationals.  Fallible operations return `Except`/`Option`.
-/

namespace VoiceRag

/-- Character-list version of Python `str.strip()`: drop whitespace from both ends. -/
def trimChars (l : List Char) : List Char :=
  ((l.dropWhile Char.isWhitespace).reverse.dropWhile Char.isWhitespace).reverse

/-- String version of Python `str.strip()` (defined on the character list so
that it evaluates inside the kernel). -/
def pyStrip (s : String) : String :=
  String.mk (trimChars s.data)

/-- String version of Python `str.lower()`. -/
def pyLower (s : String) : String :=
  String.mk (s.data.map Char.toLower)

/-- String version of Python `text.split('\n')`. -/
def pySplitLines (s : String) : List String :=
  (s.data.splitOnP (· = '\n')).map String.mk

/-- Boolean substring test, the embedding of Python `needle in hay`. -/
def strContains (hay needle : String) : Bool :=
  decide (needle.toList <:+: hay.toList)

/-- Single-quote character, used when building remote filter expressions. -/
def squote : String := String.singleton (Char.ofNat 39)

/-! ## `direct_chunk` (`document_processing/pdf_processor.py`, lines 207-262)

`direct_chunk(text, document_title, chunk_size)` splits `text` into
line-aligned chunks of roughly `chunk_size` characters, assuming about 50
characters per line, with 10% line overlap between consecutive chunks. -/

/-- Chunk record produced by `direct_chunk`: the Python dict with keys
`title`, `content`, `category`, `relevance_score`, `start_line`, `end_line`. -/
structure DChunk where
  title : String
  content : String
  category : String
  relevanceScore : ℚ
  startLine : Nat
  endLine : Nat
deriving DecidableEq, Repr, Inhabited

/-- Python `lines_per_chunk = chunk_size // 50`. -/
def linesPerChunk (chunkSize : Nat) : Nat := chunkSize / 50

/-- Python `overlap_lines = lines_per_chunk // 10`. -/
def overlapLines (chunkSize : Nat) : Nat := linesPerChunk chunkSize / 10

/-- Body of one iteration of the `direct_chunk` loop: the chunk built for loop
index `i`, with `start_idx = i * (lines_per_chunk - overlap_lines)` and
`end_idx = min(start_idx + lines_per_chunk, total_lines)`. -/
def directChunkItem (lines : List String) (title : String)
    (total lpc ov chunkCount i : Nat) : DChunk :=
  let startIdx := i * (lpc - ov)
  let endIdx := min (startIdx + lpc) total
  { title := title ++ " - Part " ++ toString (i + 1) ++ "/" ++ toString chunkCount
  , content := String.intercalate "\n" ((lines.drop startIdx).take (endIdx - startIdx))
  , category := "Document Section"
  , relevanceScore := (4 : ℚ) / 5
  , startLine := startIdx + 1
  , endLine := endIdx }

/-- The `for i in range(chunk_count)` loop of `direct_chunk`, including the
`break` once `start_idx >= total_lines`; `fuel` is the number of remaining
iterations and `i` the current loop index. -/
def directChunkLoop (lines : List String) (title : String)
    (total lpc ov chunkCount : Nat) : Nat → Nat → List DChunk
  | 0, _ => []
  | fuel + 1, i =>
    let startIdx := i * (lpc - ov)
    if total ≤ startIdx then []
    else
      directChunkItem lines title total lpc ov chunkCount i ::
        directChunkLoop lines title total lpc ov chunkCount fuel (i + 1)

/-- Embedding of `direct_chunk(text, document_title, chunk_size)`. -/
def direct_chunk (text : String) (title : String) (chunkSize : Nat := 3000) :
    List DChunk :=
  if text = "" ∨ pyStrip text = "" then []
  else
    let lines := pySplitLines text
    let total := lines.length
    if total = 0 then []
    else
      let lpc := linesPerChunk chunkSize
      let ov := overlapLines chunkSize
      let chunkCount := (total + lpc - ov - 1) / (lpc - ov)
      directChunkLoop lines title total lpc ov chunkCount chunkCount 0

/-- Embedding of `create_intelligent_chunks_with_ai(text, document_title)`:
a guard for blank text, then `direct_chunk` with the default chunk size. -/
def create_intelligent_chunks_with_ai (text : String) (title : String) :
    List DChunk :=
  if text = "" ∨ pyStrip text = "" then []
  else direct_chunk text title 3000

/-- Elements of the `direct_chunk` loop output are exactly the chunk records for
the loop indices `i`, `i+1`, ... whose start index lies inside the document. -/
theorem directChunkLoop_get?_eq (lines : List String) (title : String)
    (total lpc ov chunkCount : Nat) :
    ∀ fuel i j c,
      (directChunkLoop lines title total lpc ov chunkCount fuel i).get? j = some c →
      c = directChunkItem lines title total lpc ov chunkCount (i + j) ∧
        (i + j) * (lpc - ov) < total := by
  intro fuel
  induction fuel with
  | zero => intro i j c h; simp [directChunkLoop] at h
  | succ fuel ih =>
    intro i j c h
    rw [directChunkLoop] at h
    by_cases hlt : total ≤ i * (lpc - ov)
    · simp [hlt] at h
    · simp only [if_neg hlt] at h
      cases j with
      | zero =>
        simp at h
        refine ⟨h.symm, ?_⟩
        simp only [Nat.add_zero]
        omega
      | succ j =>
        simp only [List.get?_cons_succ] at h
        obtain ⟨hc, hbound⟩ := ih (i + 1) j c h
        constructor
        · rw [hc]; congr 1; omega
        · have : i + 1 + j = i + (j + 1) := by omega
          rw [this] at hbound; exact hbound

/-- Membership form: every chunk in the loop output is a `directChunkItem` whose
start index lies inside the document. -/
theorem directChunkLoop_mem (lines : List String) (title : String)
    (total lpc ov chunkCount fuel i : Nat) (c : DChunk)
    (hc : c ∈ directChunkLoop lines title total lpc ov chunkCount fuel i) :
    ∃ k, c = directChunkItem lines title total lpc ov chunkCount k ∧
      k * (lpc - ov) < total := by
  obtain ⟨j, hj⟩ := List.mem_iff_get?.mp hc
  obtain ⟨h1, h2⟩ := directChunkLoop_get?_eq lines title total lpc ov chunkCount fuel i j c hj
  exact ⟨i + j, h1, h2⟩

/-- Any chunk produced by `direct_chunk` satisfies `start_line ≤ end_line`,
provided the configuration is usable (`overlap_lines < lines_per_chunk`,
which holds for the default `chunk_size = 3000`). -/
theorem direct_chunk_line_order (text title : String) (chunkSize : Nat)
    (hcfg : overlapLines chunkSize < linesPerChunk chunkSize) :
    ∀ c ∈ direct_chunk text title chunkSize, c.startLine ≤ c.endLine := by
  intro c hc
  simp only [direct_chunk] at hc
  split at hc
  · simp at hc
  · split at hc
    · simp at hc
    · obtain ⟨k, hck, hbound⟩ := directChunkLoop_mem _ _ _ _ _ _ _ _ _ hc
      subst hck
      simp only [directChunkItem]
      have hlpc : 1 ≤ linesPerChunk chunkSize := by omega
      omega

/-- Overlap between adjacent `direct_chunk` chunks: whenever the overlap is
positive and the configuration is usable, the chunk at position `j + 1` starts
at or before the line where the chunk at position `j` ends. -/
theorem direct_chunk_adjacent_overlap (text title : String) (chunkSize : Nat)
    (hov : 1 ≤ overlapLines chunkSize)
    (hcfg : overlapLines chunkSize < linesPerChunk chunkSize)
    (j : Nat) (ci cj : DChunk)
    (hi : (direct_chunk text title chunkSize).get? j = some ci)
    (hj : (direct_chunk text title chunkSize).get? (j + 1) = some cj) :
    cj.startLine ≤ ci.endLine := by
  simp only [direct_chunk] at hi hj
  by_cases h1 : text = "" ∨ pyStrip text = ""
  · simp [h1] at hi
  · simp only [if_neg h1] at hi hj
    by_cases h2 : (pySplitLines text).length = 0
    · simp [h2] at hi
    · simp only [if_neg h2] at hi hj
      obtain ⟨hci, -⟩ := directChunkLoop_get?_eq _ _ _ _ _ _ _ _ _ _ hi
      obtain ⟨hcj, hbj⟩ := directChunkLoop_get?_eq _ _ _ _ _ _ _ _ _ _ hj
      subst hci hcj
      simp only [directChunkItem, Nat.zero_add] at *
      set lpc := linesPerChunk chunkSize
      set ov := overlapLines chunkSize
      set total := (pySplitLines text).length
      have hmul : (j + 1) * (lpc - ov) + 1 ≤ j * (lpc - ov) + lpc := by
        have : (j + 1) * (lpc - ov) = j * (lpc - ov) + (lpc - ov) := by ring
        omega
      have htot : (j + 1) * (lpc - ov) + 1 ≤ total := hbj
      exact le_min hmul htot

/-! ## OCR extraction (`document_processing/pdf_processor.py`, lines 71-138)

`_extract_with_ocr` rasterizes all pages and recognizes them batch by batch
(10 pages per batch).  Each page's recognition outcome is collected into a
page-indexed map `page_results`; the text appended for a page is the page
marker followed by the recognized text, a `[No text detected]` placeholder, an
`[OCR Error: ...]` placeholder, or a `[Timeout Error]` placeholder.  The
embedding takes the per-page recognition outcomes as input (the OCR engine and
the thread pool are external); it assumes every submitted page future
completes within the batch window, a timeout being reported through the
`timeout` outcome. -/

/-- Outcome of OCR recognition for one page: recognized text, a per-page
exception with its message, or a per-page timeout. -/
inductive PageOcr where
  | text (t : String)
  | err (msg : String)
  | timeout
deriving DecidableEq, Repr, Inhabited

/-- Marker line introducing page `pageNum + 1` in the concatenated OCR output. -/
def pageHeader (pageNum : Nat) : String :=
  "\n--- Page " ++ toString (pageNum + 1) ++ " ---\n"

/-- Text stored in `page_results` for page `pageNum`: the embedding of
`process_page` plus the timeout placeholder written by the collection loop. -/
def pageResult (pageNum : Nat) (r : PageOcr) : String :=
  match r with
  | .text t =>
    if pyStrip t ≠ "" then pageHeader pageNum ++ t ++ "\n"
    else pageHeader pageNum ++ "[No text detected]\n"
  | .err e => pageHeader pageNum ++ "[OCR Error: " ++ e ++ "]\n"
  | .timeout => pageHeader pageNum ++ "[Timeout Error]\n"

/-- Start indices of the OCR batches: `0, 10, 20, ...` below `total`. -/
def batchStarts (total : Nat) : List Nat :=
  (List.range ((total + 9) / 10)).map (· * 10)

/-- Segments appended to `all_text` for one batch.  The source appends the
batch's results twice: once in the loop commented "Append results in order"
(over `range(batch_start, batch_end)`) and once more in the loop commented
"Combine results in page order" (over `range(total_pages)`, which finds
exactly the current batch's entries in `page_results`). -/
def batchSegments (pages : List PageOcr) (batchStart : Nat) : List String :=
  let total := pages.length
  let batchEnd := min (batchStart + 10) total
  let seg := (List.range' batchStart (batchEnd - batchStart)).map
    (fun i => pageResult i (pages.getD i .timeout))
  seg ++ seg

/-- All strings appended to `all_text` by `_extract_with_ocr`, in order. -/
def ocrSegments (pages : List PageOcr) : List String :=
  (batchStarts pages.length).foldr (fun bs acc => batchSegments pages bs ++ acc) []

/-- Embedding of `_extract_with_ocr`: concatenate the appended segments; fail
when the result strips to the empty string (the inner `ValueError` is wrapped
by the outer `except` clause into "Concurrent OCR extraction failed: ..."). -/
def extract_with_ocr (pages : List PageOcr) : Except String String :=
  let allText := String.join (ocrSegments pages)
  if pyStrip allText ≠ "" then .ok allText
  else .error "Concurrent OCR extraction failed: OCR could not extract any text from PDF"

/-! ## `extract_pdf_text` (`document_processing/pdf_processor.py`, lines 140-186)

Native extraction produces one string per page (`page.extract_text() or ""`,
with per-page failures contributing `""`); the per-page native texts and the
per-page OCR outcomes are the inputs of the embedding. -/

/-- Python `combined_text = "\n".join(pages)`. -/
def combined_native (pages : List String) : String :=
  String.intercalate "\n" pages

/-- Condition under which `extract_pdf_text` keeps the native text:
`combined_text.strip() and text_length > 100`. -/
def nativeTextGood (pages : List String) : Prop :=
  pyStrip (combined_native pages) ≠ "" ∧ 100 < (combined_native pages).length

instance (pages : List String) : Decidable (nativeTextGood pages) := by
  unfold nativeTextGood; infer_instance

/-- Whether `extract_pdf_text` reaches the OCR branch for a document with the
given per-page native texts. -/
def invokes_ocr (pages : List String) : Bool :=
  if nativeTextGood pages then false else true

/-- Embedding of `extract_pdf_text`: fail on a page-less PDF, keep the native
text when it is non-blank and longer than 100 characters, otherwise fall
through to `_extract_with_ocr`. -/
def extract_pdf_text (pages : List String) (ocr : List PageOcr) :
    Except String String :=
  if pages = [] then .error "PDF contains no pages"
  else if nativeTextGood pages then .ok (combined_native pages)
  else extract_with_ocr ocr

/-! ## `process_pdf_task` status handling (`document_processing/tasks.py`)

With `upload_to_index = False` the task extracts text, chunks it, records
progress and sets the document status; any exception is caught and turns the
status into `FAILED` with the exception message, otherwise the status becomes
`COMPLETED`.  Text extraction is the only fallible step of that path, so the
status outcome is a function of the extraction result. -/

/-- Document processing status values of `document_processing/models.py`. -/
inductive ProcessingStatus where
  | pending
  | processing
  | completed
  | failed
deriving DecidableEq, Repr

/-- Final document status and error message written by `process_pdf_task`
(without index upload), as a function of the `extract_pdf_text` outcome. -/
def process_pdf_task_status (extractResult : Except String String) :
    ProcessingStatus × Option String :=
  match extractResult with
  | .ok _ => (.completed, none)
  | .error e => (.failed, some e)

/-! ## Embedding generation (`document_indexer.py`, lines 139-160)

`generate_embedding` calls the remote embedding service; on any exception it
derives a fallback vector from the MD5 digest of the text.  The remote call is
modelled as an optional already-obtained vector (`none` meaning the call
raised), and MD5 as a function parameter producing the 16 digest bytes. -/

/-- Python `while len(embedding) < 1536: embedding.extend(embedding)`; `fuel`
bounds the number of iterations (the source loop terminates for any non-empty
list, doubling the length each round). -/
def padEmbedding : Nat → List ℚ → List ℚ
  | 0, e => e
  | fuel + 1, e => if e.length < 1536 then padEmbedding fuel (e ++ e) else e

/-- Fallback embedding of `generate_embedding`: map each digest byte `b` to
`b / 255.0`, double the list until it has at least 1536 entries, then truncate
to 1536. -/
def fallbackEmbedding (digest : List Nat) : List ℚ :=
  let e := digest.map (fun (b : Nat) => (b : ℚ) / 255)
  (padEmbedding 1536 e).take 1536

/-- Embedding of `generate_embedding`: the primary vector when the remote call
succeeds, otherwise the deterministic hash-based fallback. -/
def generate_embedding (md5 : String → List Nat) (primary : Option (List ℚ))
    (text : String) : List ℚ :=
  match primary with
  | some v => v
  | none => fallbackEmbedding (md5 text)

/-- The padding loop reaches length 1536 whenever the starting list is
non-empty and the fuel covers the missing length. -/
theorem padEmbedding_length (fuel : Nat) :
    ∀ e : List ℚ, 1 ≤ e.length → 1536 ≤ e.length + fuel →
      1536 ≤ (padEmbedding fuel e).length := by
  induction fuel with
  | zero => intro e h1 h2; simpa [padEmbedding] using h2
  | succ fuel ih =>
    intro e h1 h2
    rw [padEmbedding]
    by_cases hlt : e.length < 1536
    · rw [if_pos hlt]
      exact ih (e ++ e) (by simp; omega) (by simp; omega)
    · rw [if_neg hlt]; omega

/-! ## Index store and search (`document_indexer.py`, lines 162-373)

`index_document` extracts text, chunks it, attaches embeddings and uploads the
chunk records to the remote search service; on any upload exception it appends
the records (minus the embedding field) to the in-memory local store.
`search_documents` queries the remote service with a filter expression when a
client is configured, falling back to a substring scan of the local store;
`list_indexed_pdfs` enumerates the local store only. -/

/-- Chunk record prepared by `index_document` for upload (the Azure Search
document with the default field names); the local copy drops `embedding`. -/
structure IndexedDoc where
  chunkId : String
  parentId : String
  title : String
  content : String
  embedding : Option (List ℚ)
  filename : String
  userId : String
  startLine : Nat
  endLine : Nat
  chunkIndex : Nat
  totalChunks : Nat
deriving DecidableEq, Repr

/-- Local-store copy of a record: every field except the embedding. -/
def strip_embedding (d : IndexedDoc) : IndexedDoc :=
  { d with embedding := none }

/-- Documents prepared by the `for i, chunk in enumerate(chunks)` loop of
`index_document`; `stem` is `Path(filename).stem` and `uuid8 i` the fresh
8-hex-digit uuid suffix drawn for chunk `i`. -/
def mk_documents (chunks : List DChunk) (filename stem : String)
    (userId : Option String) (embed : String → List ℚ) (uuid8 : Nat → String) :
    List IndexedDoc :=
  chunks.enum.map fun p =>
    { chunkId := stem ++ "_" ++ toString (p.1 + 1) ++ "_" ++ uuid8 p.1
    , parentId := stem
    , title := p.2.title
    , content := p.2.content
    , embedding := some (embed p.2.content)
    , filename := filename
    , userId := userId.getD "anonymous"
    , startLine := p.2.startLine
    , endLine := p.2.endLine
    , chunkIndex := p.1 + 1
    , totalChunks := chunks.length }

/-- Outcome of `search_client.upload_documents`: per-document success flags,
or an exception. -/
inductive UploadOutcome where
  | ok (flags : List Bool)
  | err
deriving DecidableEq, Repr

/-- Embedding of `DocumentIndexer.index_document`.  Inputs: the remote upload
call (`none` when no search client was initialized), the current local store,
the outcome of `extract_pdf_text` (an exception there is caught by the outer
`except` and yields `False`), the filename data, the per-chunk embedding
function and the uuid source.  Output: the returned boolean and the new local
store. -/
def index_document (remote : Option (List IndexedDoc → UploadOutcome))
    (localDocs : List IndexedDoc) (extractResult : Except String String)
    (filename stem : String) (userId : Option String)
    (embed : String → List ℚ) (uuid8 : Nat → String) :
    Bool × List IndexedDoc :=
  match extractResult with
  | .error _ => (false, localDocs)
  | .ok text =>
    if text = "" ∨ pyStrip text = "" then (false, localDocs)
    else
      let chunks := create_intelligent_chunks_with_ai text filename
      if chunks = [] then (false, localDocs)
      else
        let documents := mk_documents chunks filename stem userId embed uuid8
        if documents = [] then (false, localDocs)
        else
          let fallback := (true, localDocs ++ documents.map strip_embedding)
          match remote with
          | some upload =>
            match upload documents with
            | .ok flags => (0 < flags.count true, localDocs)
            | .err => fallback
          | none => fallback

/-- Search result record assembled by `search_documents`. -/
structure SearchResult where
  chunkId : String
  title : String
  content : String
  filename : String
  startLine : Nat
  endLine : Nat
  chunkIndex : Nat
  totalChunks : Nat
deriving DecidableEq, Repr

/-- Conversion of a stored record into a search result (the fields selected by
both the remote and the local branch of `search_documents`). -/
def to_search_result (d : IndexedDoc) : SearchResult :=
  { chunkId := d.chunkId
  , title := d.title
  , content := d.content
  , filename := d.filename
  , startLine := d.startLine
  , endLine := d.endLine
  , chunkIndex := d.chunkIndex
  , totalChunks := d.totalChunks }

/-- Filter expression built by the remote branch of `search_documents`:
`user_id eq '<id>'` and/or `filename eq '<name>'`, or no filter at all. -/
def build_filter (userId filenameFilter : Option String) : Option String :=
  let conds :=
    (match userId with
     | some u => ["user_id eq " ++ squote ++ u ++ squote]
     | none => []) ++
    (match filenameFilter with
     | some f => ["filename eq " ++ squote ++ f ++ squote]
     | none => [])
  if conds = [] then none else some (String.intercalate " and " conds)

/-- Local-store match predicate of `search_documents`: user filter, filename
filter, then case-insensitive substring match on content or title. -/
def matches_doc (query : String) (userId filenameFilter : Option String)
    (d : IndexedDoc) : Bool :=
  (match userId with | some u => d.userId = u | none => true) &&
  (match filenameFilter with | some f => d.filename = f | none => true) &&
  (strContains (pyLower d.content) (pyLower query) ||
   strContains (pyLower d.title) (pyLower query))

/-- Local fallback branch of `search_documents`: scan the store, keep matches,
return the first `top` of them. -/
def search_documents_local (docs : List IndexedDoc) (query : String) (top : Nat)
    (userId filenameFilter : Option String) : List SearchResult :=
  ((docs.filter (matches_doc query userId filenameFilter)).map to_search_result).take top

/-- Embedding of `DocumentIndexer.search_documents`: run the remote hybrid
query with the built filter when a client is configured; on a missing client
or a remote exception, scan the local store. -/
def search_documents
    (remote : Option (Option String → Except Unit (List SearchResult)))
    (docs : List IndexedDoc) (query : String) (top : Nat)
    (userId filenameFilter : Option String) : List SearchResult :=
  match remote with
  | some exec =>
    match exec (build_filter userId filenameFilter) with
    | .ok rs => rs
    | .error _ => search_documents_local docs query top userId filenameFilter
  | none => search_documents_local docs query top userId filenameFilter

/-- Embedding of `DocumentIndexer.search_in_pdf`. -/
def search_in_pdf (remote : Option (Option String → Except Unit (List SearchResult)))
    (docs : List IndexedDoc) (query filename : String) (top : Nat)
    (userId : Option String) : List SearchResult :=
  search_documents remote docs query top userId (some filename)

/-- Dispatch of the `/api/analyze` handler (`app.py`, lines 298-341): the
`"user_uploaded"` filename selects guarded mode (search the caller's own
documents), another filename selects the single-document search, and no
filename selects the unguarded search across all documents. -/
def analyze_pdf_search
    (remote : Option (Option String → Except Unit (List SearchResult)))
    (docs : List IndexedDoc) (query : String) (userId : Option String)
    (filename : Option String) : List SearchResult :=
  match filename with
  | some f =>
    if f = "user_uploaded" then search_documents remote docs query 10 userId none
    else search_in_pdf remote docs query f 10 userId
  | none => search_documents remote docs query 10 none none

/-- Entry of the listing returned by `list_indexed_pdfs`. -/
structure PdfInfo where
  filename : String
  totalChunks : Nat
  userId : String
deriving DecidableEq, Repr

/-- Python guard `if user_id and doc.get('user_id') != user_id: continue`. -/
def userMismatch (userId : Option String) (d : IndexedDoc) : Bool :=
  match userId with
  | some u => d.userId ≠ u
  | none => false

/-- Accumulating loop of `list_indexed_pdfs`: Python's insertion-ordered dict
keyed by filename, keeping the first record seen per filename. -/
def listPdfsLoop (userId : Option String) :
    List IndexedDoc → List PdfInfo → List PdfInfo
  | [], acc => acc
  | d :: rest, acc =>
    if userMismatch userId d then
      listPdfsLoop userId rest acc
    else if acc.any (fun p => p.filename = d.filename) then
      listPdfsLoop userId rest acc
    else
      listPdfsLoop userId rest (acc ++ [⟨d.filename, d.totalChunks, d.userId⟩])

/-- Embedding of `DocumentIndexer.list_indexed_pdfs`: the listing is computed
from the local store alone (the remote index is never consulted). -/
def list_indexed_pdfs (localDocs : List IndexedDoc) (userId : Option String) :
    List PdfInfo :=
  listPdfsLoop userId localDocs []

/-- Filenames surfaced by the listing loop all come from its inputs. -/
theorem listPdfsLoop_filenames (userId : Option String) :
    ∀ (docs : List IndexedDoc) (acc : List PdfInfo) (p : PdfInfo),
      p ∈ listPdfsLoop userId docs acc →
      p ∈ acc ∨ p.filename ∈ docs.map (·.filename) := by
  intro docs
  induction docs with
  | nil => intro acc p hp; exact Or.inl hp
  | cons d rest ih =>
    intro acc p hp
    have hstep : listPdfsLoop userId (d :: rest) acc =
        if userMismatch userId d then
          listPdfsLoop userId rest acc
        else if acc.any (fun q => q.filename = d.filename) then
          listPdfsLoop userId rest acc
        else
          listPdfsLoop userId rest (acc ++ [⟨d.filename, d.totalChunks, d.userId⟩]) := by
      rfl
    rw [hstep] at hp
    by_cases hskip : userMismatch userId d = true
    · rw [if_pos hskip] at hp
      rcases ih acc p hp with h | h
      · exact Or.inl h
      · exact Or.inr (by simp [h])
    · rw [if_neg hskip] at hp
      by_cases hseen : (acc.any (fun q => q.filename = d.filename)) = true
      · rw [if_pos hseen] at hp
        rcases ih acc p hp with h | h
        · exact Or.inl h
        · exact Or.inr (by simp [h])
      · rw [if_neg hseen] at hp
        rcases ih _ p hp with h | h
        · rcases List.mem_append.mp h with h | h
          · exact Or.inl h
          · simp only [List.mem_singleton] at h
            subst h
            exact Or.inr (by simp)
        · exact Or.inr (by simp [h])

/-- Filenames in the listing are filenames of local-store records. -/
theorem list_indexed_pdfs_filenames (localDocs : List IndexedDoc)
    (userId : Option String) (p : PdfInfo)
    (hp : p ∈ list_indexed_pdfs localDocs userId) :
    p.filename ∈ localDocs.map (·.filename) := by
  rcases listPdfsLoop_filenames userId localDocs [] p hp with h | h
  · simp at h
  · exact h

/-! ## Positioned extraction (`enhanced_pdf_processor.py`, lines 192-249)

`_extract_text_with_positions(page, page_num)` walks the page's text blocks,
concatenates the spans of every physical line, records a character position for
each character, and keeps a numbered entry for every line whose stripped text
is non-empty.  Page text is modelled at the character level (`List Char`) and
bounding boxes as rational 4-tuples. -/

/-- Bounding box `[x0, y0, x1, y1]` as delivered by the PDF library. -/
structure BBox where
  x0 : ℚ
  y0 : ℚ
  x1 : ℚ
  y1 : ℚ
deriving DecidableEq, Repr

/-- Smallest box containing two boxes (the expansion step of the source). -/
def expandBBox (a b : BBox) : BBox :=
  ⟨min a.x0 b.x0, min a.y0 b.y0, max a.x1 b.x1, max a.y1 b.y1⟩

/-- Text span of a physical line, with its box. -/
structure Span where
  text : List Char
  bbox : BBox
deriving DecidableEq, Repr

/-- Physical line of a block: its list of spans. -/
structure SrcLine where
  spans : List Span
deriving DecidableEq, Repr

/-- Text block of a page: blocks without a `"lines"` key are carried as
`none` and skipped. -/
structure Block where
  srcLines : Option (List SrcLine)
deriving DecidableEq, Repr

/-- Entry of the `char_positions` list. -/
structure CharPos where
  char : Char
  offset : Nat
  line : Nat
  bbox : BBox
deriving DecidableEq, Repr

/-- Entry of the `lines` list: number, stripped text, box, character range. -/
structure PLine where
  lineNumber : Nat
  text : List Char
  bbox : Option BBox
  charStart : Nat
  charEnd : Nat
deriving DecidableEq, Repr

/-- Output of `_extract_text_with_positions`. -/
structure TextData where
  pageNumber : Nat
  lines : List PLine
  fullText : List Char
  charPositions : List CharPos
deriving DecidableEq, Repr

/-- Mutable state of the extraction walk. -/
structure ExtState where
  charOffset : Nat
  lineNumber : Nat
  lines : List PLine
  fullText : List Char
  charPositions : List CharPos
deriving Repr

/-- Per-span accumulator: line text so far, line box so far, character
positions recorded for the line so far, current character offset. -/
structure SpanAcc where
  lineText : List Char
  lineBbox : Option BBox
  cps : List CharPos
  offset : Nat
deriving Repr

/-- One span of the `for span in line["spans"]` loop: append the span text,
record one character position per character, expand the line box. -/
def spanStep (ln : Nat) (acc : SpanAcc) (sp : Span) : SpanAcc :=
  { lineText := acc.lineText ++ sp.text
  , lineBbox :=
      match acc.lineBbox with
      | none => some sp.bbox
      | some b => some (expandBBox b sp.bbox)
  , cps := acc.cps ++ sp.text.enum.map (fun p => ⟨p.2, acc.offset + p.1, ln, sp.bbox⟩)
  , offset := acc.offset + sp.text.length }

/-- One line of the `for line in block["lines"]` loop: fold the spans, then
keep the line (stripped) when its stripped text is non-empty, assigning the
next line number and the character range `[offset - len(stripped), offset)`. -/
def lineStep (st : ExtState) (l : SrcLine) : ExtState :=
  let acc := l.spans.foldl (spanStep st.lineNumber) ⟨[], none, [], st.charOffset⟩
  let st1 : ExtState :=
    { st with charOffset := acc.offset, charPositions := st.charPositions ++ acc.cps }
  let t := trimChars acc.lineText
  if t ≠ [] then
    { st1 with
      lines := st1.lines ++
        [⟨st1.lineNumber, t, acc.lineBbox, acc.offset - t.length, acc.offset⟩]
      fullText := st1.fullText ++ t ++ ['\n']
      lineNumber := st1.lineNumber + 1 }
  else st1

/-- One block of the `for block in blocks["blocks"]` loop. -/
def blockStep (st : ExtState) (b : Block) : ExtState :=
  match b.srcLines with
  | some ls => ls.foldl lineStep st
  | none => st

/-- Embedding of `_extract_text_with_positions`. -/
def extract_text_with_positions (blocks : List Block) (pageNum : Nat) : TextData :=
  let st := blocks.foldl blockStep ⟨0, 0, [], [], []⟩
  ⟨pageNum, st.lines, st.fullText, st.charPositions⟩

/-! ## Token chunking (`enhanced_pdf_processor.py`, lines 251-331)

`_create_token_chunks` slides a window of `token_chunk_size` tokens over the
encoded page text, advancing by `token_chunk_size - token_overlap`, decodes
each window and attributes it to the page lines sharing a word with the
window text.  The tokenizer (`tiktoken`) and the token-id hash are function
parameters. -/

/-- Python `.split()` on a character list: split on whitespace runs, dropping
empty pieces. -/
def splitWords (l : List Char) : List (List Char) :=
  (l.splitOnP Char.isWhitespace).filter (· ≠ [])

/-- Word-overlap test of `_find_chunk_lines`: the intersection of the two word
sets is non-empty. -/
def wordOverlap (a b : List (List Char)) : Bool :=
  a.any (fun w => b.contains w)

/-- Embedding of `_find_chunk_lines`: the page lines sharing at least one
lowercased word with the chunk text, in page order. -/
def find_chunk_lines (chunkText : List Char) (lines : List PLine) : List PLine :=
  let chunkWords := splitWords (chunkText.map Char.toLower)
  if chunkWords = [] then []
  else lines.filter (fun l =>
    wordOverlap chunkWords (splitWords (l.text.map Char.toLower)))

/-- Chunk bounding box of `_calculate_chunk_bbox`: extremes of the coordinates
of the lines that carry a box, or the zero box. -/
structure ChunkBBox where
  x : ℚ
  y : ℚ
  width : ℚ
  height : ℚ
deriving DecidableEq, Repr

/-- Embedding of `_calculate_chunk_bbox`. -/
def calculate_chunk_bbox (ls : List PLine) : ChunkBBox :=
  match ls.filterMap (·.bbox) with
  | [] => ⟨0, 0, 0, 0⟩
  | b :: bs =>
    let xmin := bs.foldl (fun m c => min m (min c.x0 c.x1)) (min b.x0 b.x1)
    let xmax := bs.foldl (fun m c => max m (max c.x0 c.x1)) (max b.x0 b.x1)
    let ymin := bs.foldl (fun m c => min m (min c.y0 c.y1)) (min b.y0 b.y1)
    let ymax := bs.foldl (fun m c => max m (max c.y0 c.y1)) (max b.y0 b.y1)
    ⟨xmin, ymin, xmax - xmin, ymax - ymin⟩

/-- Chunk record of `_create_token_chunks`. -/
structure TokChunk where
  tokenId : String
  content : List Char
  tokenCount : Nat
  pageNumber : Nat
  chunkIndex : Nat
  chunkLines : List PLine
  lineStart : Nat
  lineEnd : Nat
  charStart : Nat
  charEnd : Nat
  bbox : ChunkBBox
deriving DecidableEq, Repr

/-- Embedding of `_create_token_chunks`: `encode`/`decode` are the pluggable
tokenizer, `mkTokenId` the MD5-based token-id generator, `tokSize` and
`tokOverlap` the `token_chunk_size`/`token_overlap` configuration. -/
def create_token_chunks (encode : List Char → List Nat)
    (decode : List Nat → List Char) (mkTokenId : Nat → Nat → List Char → String)
    (tokSize tokOverlap : Nat) (td : TextData) (pageNum : Nat) : List TokChunk :=
  let tokens := encode td.fullText
  let step := tokSize - tokOverlap
  let iters := if step = 0 then 0 else (tokens.length + step - 1) / step
  ((List.range iters).map (· * step)).enum.map fun p =>
    let chunkTokens := (tokens.drop p.2).take tokSize
    let chunkText := decode chunkTokens
    let chunkLines := find_chunk_lines chunkText td.lines
    { tokenId := mkTokenId pageNum p.1 chunkText
    , content := chunkText
    , tokenCount := chunkTokens.length
    , pageNumber := pageNum
    , chunkIndex := p.1
    , chunkLines := chunkLines
    , lineStart := ((chunkLines.head?).map (·.lineNumber)).getD 0
    , lineEnd := ((chunkLines.getLast?).map (·.lineNumber)).getD 0
    , charStart := ((chunkLines.head?).map (·.charStart)).getD 0
    , charEnd := ((chunkLines.getLast?).map (·.charEnd)).getD 0
    , bbox := calculate_chunk_bbox chunkLines }

/-! ### Structural invariants of the positioned extraction -/

/-- Dropping a whitespace run never lengthens a list. -/
theorem length_dropWhile_le_self (p : Char → Bool) (l : List Char) :
    (l.dropWhile p).length ≤ l.length := by
  induction l with
  | nil => simp
  | cons a l ih =>
    rw [List.dropWhile_cons]
    split
    · exact Nat.le_succ_of_le ih
    · simp

/-- Stripping never lengthens a list. -/
theorem length_trimChars_le (l : List Char) : (trimChars l).length ≤ l.length := by
  unfold trimChars
  calc ((l.dropWhile Char.isWhitespace).reverse.dropWhile Char.isWhitespace).reverse.length
      = ((l.dropWhile Char.isWhitespace).reverse.dropWhile Char.isWhitespace).length := by
        rw [List.length_reverse]
    _ ≤ (l.dropWhile Char.isWhitespace).reverse.length :=
        length_dropWhile_le_self _ _
    _ = (l.dropWhile Char.isWhitespace).length := by rw [List.length_reverse]
    _ ≤ l.length := length_dropWhile_le_self _ _

/-- Invariant carried through the extraction walk: line numbers are exactly
`0, 1, ..., lineNumber - 1`, character ranges are chained and valid, all ranges
close at or before the current offset, and every kept line is non-blank. -/
def goodExtState (st : ExtState) : Prop :=
  st.lines.map (·.lineNumber) = List.range st.lineNumber ∧
  st.lines.Pairwise (fun a b => a.charEnd ≤ b.charStart) ∧
  ∀ l ∈ st.lines, l.charStart ≤ l.charEnd ∧ l.charEnd ≤ st.charOffset ∧ l.text ≠ []

/-- Offset bookkeeping of the span fold: starting from an accumulator whose
offset exceeds its text length by `base`, the fold preserves that excess. -/
theorem spanFold_offset_eq (ln : Nat) (sps : List Span) (base : Nat) :
    ∀ acc : SpanAcc, acc.offset = base + acc.lineText.length →
      (sps.foldl (spanStep ln) acc).offset =
        base + (sps.foldl (spanStep ln) acc).lineText.length := by
  induction sps with
  | nil => intro acc h; simpa using h
  | cons sp sps ih =>
    intro acc h
    simp only [List.foldl_cons]
    apply ih
    simp [spanStep, h]
    omega

/-- `lineStep` preserves the extraction invariant and never decreases the
character offset. -/
theorem lineStep_good (st : ExtState) (l : SrcLine) (h : goodExtState st) :
    goodExtState (lineStep st l) ∧ st.charOffset ≤ (lineStep st l).charOffset := by
  obtain ⟨hnum, hchain, hmem⟩ := h
  unfold lineStep
  set acc := l.spans.foldl (spanStep st.lineNumber) ⟨[], none, [], st.charOffset⟩ with hacc
  have hoff : acc.offset = st.charOffset + acc.lineText.length := by
    rw [hacc]
    exact spanFold_offset_eq st.lineNumber l.spans st.charOffset _ (by simp)
  have hofge : st.charOffset ≤ acc.offset := by omega
  have htle : (trimChars acc.lineText).length ≤ acc.lineText.length :=
    length_trimChars_le _
  by_cases hne : trimChars acc.lineText ≠ []
  · rw [if_pos hne]
    have hstart : st.charOffset ≤ acc.offset - (trimChars acc.lineText).length := by
      omega
    refine ⟨⟨?_, ?_, ?_⟩, by simpa using hofge⟩
    · simp only [List.map_append, hnum, List.map_cons, List.map_nil]
      rw [List.range_succ]
    · rw [List.pairwise_append]
      refine ⟨hchain, by simp, ?_⟩
      intro a ha b hb
      simp only [List.mem_singleton] at hb
      subst hb
      have := (hmem a ha).2.1
      simp only
      omega
    · intro x hx
      rcases List.mem_append.mp hx with hx | hx
      · obtain ⟨h1, h2, h3⟩ := hmem x hx
        exact ⟨h1, by simpa using le_trans h2 hofge, h3⟩
      · simp only [List.mem_singleton] at hx
        subst hx
        refine ⟨Nat.sub_le _ _, by simp, by simp [hne]⟩
  · rw [if_neg hne]
    refine ⟨⟨hnum, hchain, ?_⟩, by simpa using hofge⟩
    intro x hx
    obtain ⟨h1, h2, h3⟩ := hmem x hx
    exact ⟨h1, by simpa using le_trans h2 hofge, h3⟩

/-- Folding `lineStep` over any list of lines preserves the invariant. -/
theorem lineFold_good (ls : List SrcLine) :
    ∀ st : ExtState, goodExtState st → goodExtState (ls.foldl lineStep st) := by
  induction ls with
  | nil => intro st h; simpa using h
  | cons l ls ih =>
    intro st h
    simp only [List.foldl_cons]
    exact ih _ (lineStep_good st l h).1

/-- Folding `blockStep` over any list of blocks preserves the invariant. -/
theorem blockFold_good (bs : List Block) :
    ∀ st : ExtState, goodExtState st → goodExtState (bs.foldl blockStep st) := by
  induction bs with
  | nil => intro st h; simpa using h
  | cons b bs ih =>
    intro st h
    simp only [List.foldl_cons]
    apply ih
    unfold blockStep
    match hb : b.srcLines with
    | some ls => exact lineFold_good ls st h
    | none => exact h

/-- Invariants of the extracted line list: line numbers are exactly
`0, 1, ..., n-1` in order, character ranges are chained and valid, and every
kept line has non-empty stripped text. -/
theorem extract_text_with_positions_good (blocks : List Block) (pageNum : Nat) :
    ((extract_text_with_positions blocks pageNum).lines.map (·.lineNumber) =
      List.range (extract_text_with_positions blocks pageNum).lines.length) ∧
    (extract_text_with_positions blocks pageNum).lines.Pairwise
      (fun a b => a.charEnd ≤ b.charStart) ∧
    ∀ l ∈ (extract_text_with_positions blocks pageNum).lines,
      l.charStart ≤ l.charEnd ∧ l.text ≠ [] := by
  have h0 : goodExtState ⟨0, 0, [], [], []⟩ := by
    refine ⟨by simp, by simp, by simp⟩
  have hg := blockFold_good blocks _ h0
  obtain ⟨hnum, hchain, hmem⟩ := hg
  set st := blocks.foldl blockStep ⟨0, 0, [], [], []⟩ with hst
  have hlen : st.lines.length = st.lineNumber := by
    have := congrArg List.length hnum
    simpa using this
  refine ⟨?_, ?_, ?_⟩
  · show st.lines.map (·.lineNumber) = List.range st.lines.length
    rw [hlen]; exact hnum
  · exact hchain
  · intro l hl
    exact ⟨(hmem l hl).1, (hmem l hl).2.2⟩

/-- `_find_chunk_lines` returns a sublist of the page's lines. -/
theorem find_chunk_lines_sublist (ct : List Char) (lines : List PLine) :
    (find_chunk_lines ct lines).Sublist lines := by
  simp only [find_chunk_lines]
  split
  · exact List.nil_sublist _
  · exact List.filter_sublist _

/-- Head and last entries of an ordered line list bound each other: the first
line number is at most the last, and the first character start is at most the
last character end.  (Both sides default to 0 on the empty list.) -/
theorem head_last_bounds (f : List PLine)
    (hp1 : f.Pairwise (fun a b => a.lineNumber < b.lineNumber))
    (hp2 : f.Pairwise (fun a b => a.charEnd ≤ b.charStart))
    (hse : ∀ l ∈ f, l.charStart ≤ l.charEnd) :
    ((f.head?.map (·.lineNumber)).getD 0 ≤ (f.getLast?.map (·.lineNumber)).getD 0) ∧
    ((f.head?.map (·.charStart)).getD 0 ≤ (f.getLast?.map (·.charEnd)).getD 0) := by
  match f with
  | [] => simp
  | a :: rest =>
    match hr : rest with
    | [] =>
      simp only [List.head?_cons, List.getLast?_singleton]
      simp only [Option.map_some', Option.getD_some]
      exact ⟨le_refl _, hse a (by simp)⟩
    | b :: rest2 =>
      have hne : (b :: rest2) ≠ [] := by simp
      have hlast : (a :: b :: rest2).getLast? = (b :: rest2).getLast? := by
        rw [List.getLast?_cons_cons]
      set last := (b :: rest2).getLast hne with hlastdef
      have hsome : (b :: rest2).getLast? = some last := by
        rw [List.getLast?_eq_getLast _ hne]
      have hlastmem : last ∈ (b :: rest2) := List.getLast_mem hne
      have h1 : a.lineNumber < last.lineNumber :=
        List.rel_of_pairwise_cons hp1 hlastmem
      have h2 : a.charEnd ≤ last.charStart :=
        List.rel_of_pairwise_cons hp2 hlastmem
      have h3 : a.charStart ≤ a.charEnd := hse a (by simp)
      have h4 : last.charStart ≤ last.charEnd :=
        hse last (by simp [hlastmem])
      simp only [List.head?_cons, hlast, hsome]
      simp only [Option.map_some', Option.getD_some]
      exact ⟨le_of_lt h1, by omega⟩

/-- Invariants of `_create_token_chunks` on extracted page data: line range and
character range are ordered and the token count never exceeds the configured
`token_chunk_size`. -/
theorem create_token_chunks_invariants (encode : List Char → List Nat)
    (decode : List Nat → List Char) (mkTokenId : Nat → Nat → List Char → String)
    (tokSize tokOverlap : Nat) (blocks : List Block) (pageNum : Nat) :
    ∀ c ∈ create_token_chunks encode decode mkTokenId tokSize tokOverlap
        (extract_text_with_positions blocks pageNum) pageNum,
      c.lineStart ≤ c.lineEnd ∧ c.charStart ≤ c.charEnd ∧ c.tokenCount ≤ tokSize := by
  intro c hc
  obtain ⟨hnum, hchain, hmem⟩ := extract_text_with_positions_good blocks pageNum
  set td := extract_text_with_positions blocks pageNum with htd
  simp only [create_token_chunks] at hc
  obtain ⟨p, hp, hcp⟩ := List.mem_map.mp hc
  subst hcp
  dsimp only
  have hlt : td.lines.Pairwise (fun a b => a.lineNumber < b.lineNumber) := by
    have hr : (td.lines.map (·.lineNumber)).Pairwise (· < ·) := by
      rw [hnum]; exact List.pairwise_lt_range _
    exact List.pairwise_map.mp hr
  have hsub := find_chunk_lines_sublist
    (decode (((encode td.fullText).drop p.2).take tokSize)) td.lines
  have hlt2 := List.Pairwise.sublist hsub hlt
  have hchain2 := List.Pairwise.sublist hsub hchain
  have hse2 : ∀ l ∈ find_chunk_lines
      (decode (((encode td.fullText).drop p.2).take tokSize)) td.lines,
      l.charStart ≤ l.charEnd := by
    intro l hl
    exact (hmem l (hsub.subset hl)).1
  obtain ⟨hl1, hl2⟩ := head_last_bounds _ hlt2 hchain2 hse2
  refine ⟨hl1, hl2, ?_⟩
  show (((encode td.fullText).drop p.2).take tokSize).length ≤ tokSize
  rw [List.length_take]
  exact inf_le_left

/-! ## Claim theorems -/

/-- C1, counterexample.  The claim states that a guarded-mode search with no
owner id returns an empty result list and never runs an unscoped query.  In
the code the guarded branch of `analyze_pdf` calls `search_documents` with the
missing `user_id`, which then applies no owner filter at all: with a local
store holding a single chunk owned by `alice` and matching the query, the
guarded search with absent owner returns that chunk, so the result is not
empty. -/
theorem claim1_counterexample :
    analyze_pdf_search none
      [{ chunkId := "c1", parentId := "doc", title := "Taxes",
         content := "tax information", embedding := none, filename := "doc.pdf",
         userId := "alice", startLine := 1, endLine := 3, chunkIndex := 1,
         totalChunks := 1 }] "tax" none (some "user_uploaded") ≠ [] := by
  decide

/-- C1, amended.  A guarded-mode search request with no owner id present does
not short-circuit to an empty result list; it executes exactly the same
unscoped query as unguarded mode, with no owner filter in the remote filter
expression. -/
theorem claim1_guarded_no_owner_is_unscoped
    (remote : Option (Option String → Except Unit (List SearchResult)))
    (docs : List IndexedDoc) (query : String) :
    analyze_pdf_search remote docs query none (some "user_uploaded") =
      analyze_pdf_search remote docs query none none ∧
    build_filter none none = none :=
  ⟨rfl, rfl⟩

/-- C2, code bug.  The claim states that each page's recognized OCR text
appears exactly once in the concatenated output.  The source appends every
batch's page results twice (once in the per-batch "append results in order"
loop, once more in the "combine results in page order" loop that runs inside
the batch loop), so for a one-page document whose OCR yields `"hello"` the
page's text segment occurs twice in the output and the returned text is the
segment duplicated. -/
theorem claim2_ocr_page_text_duplicated :
    (ocrSegments [PageOcr.text "hello"]).count
      (pageResult 0 (PageOcr.text "hello")) = 2 ∧
    extract_with_ocr [PageOcr.text "hello"] =
      .ok (pageResult 0 (PageOcr.text "hello") ++
           pageResult 0 (PageOcr.text "hello")) := by
  constructor
  · decide
  · rfl

/-- C6, counterexample.  The claim states that line numbers are document-global
and never reset at a page boundary.  The extraction initializes
`line_number = 0` separately for every page, so in a two-page document whose
pages each contain one non-blank line, both pages assign line number 0: the
numbering restarts on page 2 and the number repeats across pages. -/
theorem claim6_counterexample :
    ((extract_text_with_positions
        [⟨some [⟨[⟨"alpha".toList, ⟨0, 0, 1, 1⟩⟩]⟩]⟩] 1).lines.map
      (·.lineNumber) = [0]) ∧
    ((extract_text_with_positions
        [⟨some [⟨[⟨"beta".toList, ⟨0, 0, 1, 1⟩⟩]⟩]⟩] 2).lines.map
      (·.lineNumber) = [0]) := by
  decide

/-- C6, amended.  Line numbers assigned by `_extract_text_with_positions` are
page-local: on every page the kept lines are numbered `0, 1, 2, ...` in order
(monotonically increasing within the page, restarting from 0 on each page),
and a line whose stripped text is empty does not consume a line number. -/
theorem claim6_page_local_line_numbering (blocks : List Block) (pageNum : Nat) :
    ((extract_text_with_positions blocks pageNum).lines.map (·.lineNumber) =
      List.range (extract_text_with_positions blocks pageNum).lines.length) ∧
    ∀ l ∈ (extract_text_with_positions blocks pageNum).lines, l.text ≠ [] := by
  obtain ⟨hnum, -, hmem⟩ := extract_text_with_positions_good blocks pageNum
  exact ⟨hnum, fun l hl => (hmem l hl).2⟩

/-- C7, code bug.  The claim states that OCR recognition producing no usable
text on any page makes the extraction fail and drives the ingestion to a
failed status with an error message.  In the code a page with no recognized
text contributes a `[No text detected]` placeholder, so the concatenated
output never strips to empty for a document with at least one page: on a
one-page document with empty OCR output, `_extract_with_ocr` returns the
placeholder text (duplicated by the batch loops) instead of raising, and the
processing task completes with status `completed` and no error message. -/
theorem claim7_ocr_exhaustion_not_failing :
    extract_with_ocr [PageOcr.text ""] =
      .ok ((pageHeader 0 ++ "[No text detected]\n") ++
           (pageHeader 0 ++ "[No text detected]\n")) ∧
    process_pdf_task_status (extract_with_ocr [PageOcr.text ""]) =
      (ProcessingStatus.completed, none) := by
  constructor
  · rfl
  · decide

/-- C8, counterexample.  The claim states that a combined native text of at
least 100 characters is returned without invoking OCR.  The code keeps the
native text only when its length is strictly greater than 100, so a document
whose pages yield exactly 100 characters reaches the OCR branch. -/
theorem claim8_counterexample :
    (combined_native [String.mk (List.replicate 100 'a')]).length = 100 ∧
    invokes_ocr [String.mk (List.replicate 100 'a')] = true := by
  constructor
  · decide
  · decide

/-- C8, amended.  For a document with at least one page, `extract_pdf_text`
returns the combined native text exactly when that text is non-blank and
strictly longer than 100 characters (`nativeTextGood`); otherwise — including
the boundary case of exactly 100 characters — it invokes OCR extraction. -/
theorem claim8_native_threshold_strict (pages : List String) (ocr : List PageOcr)
    (h : pages ≠ []) :
    (invokes_ocr pages = false ↔ nativeTextGood pages) ∧
    (invokes_ocr pages = false →
      extract_pdf_text pages ocr = .ok (combined_native pages)) ∧
    (invokes_ocr pages = true →
      extract_pdf_text pages ocr = extract_with_ocr ocr) := by
  have hiff : invokes_ocr pages = false ↔ nativeTextGood pages := by
    by_cases hg : nativeTextGood pages
    · simp [invokes_ocr, hg]
    · simp [invokes_ocr, hg]
  refine ⟨hiff, ?_, ?_⟩
  · intro hfalse
    have hg := hiff.mp hfalse
    simp [extract_pdf_text, h, hg]
  · intro htrue
    have hg : ¬ nativeTextGood pages := by
      intro hg
      rw [hiff.mpr hg] at htrue
      exact Bool.false_ne_true htrue
    simp [extract_pdf_text, h, hg]

/-- C8, witness for the amended theorem at a concrete one-page document. -/
theorem claim8_witness :
    (["hello"] : List String) ≠ [] ∧
    ((invokes_ocr ["hello"] = false ↔ nativeTextGood ["hello"]) ∧
     (invokes_ocr ["hello"] = false →
       extract_pdf_text ["hello"] [] = .ok (combined_native ["hello"])) ∧
     (invokes_ocr ["hello"] = true →
       extract_pdf_text ["hello"] [] = extract_with_ocr [])) :=
  ⟨by decide, claim8_native_threshold_strict ["hello"] [] (by decide)⟩

/-- C3.  When text extraction and chunking succeed and the configured remote
search backend raises on the upload, `index_document` appends the prepared
chunk records (minus the embedding field) to the local store and returns
`True`; no exception reaches the caller (the embedding is total). -/
theorem claim3_remote_write_failure_falls_back_to_local
    (upload : List IndexedDoc → UploadOutcome) (localDocs : List IndexedDoc)
    (text filename stem : String) (userId : Option String)
    (embed : String → List ℚ) (uuid8 : Nat → String)
    (htext : ¬(text = "" ∨ pyStrip text = ""))
    (hchunks : create_intelligent_chunks_with_ai text filename ≠ [])
    (herr : upload (mk_documents (create_intelligent_chunks_with_ai text filename)
      filename stem userId embed uuid8) = .err) :
    index_document (some upload) localDocs (.ok text) filename stem userId embed uuid8 =
      (true, localDocs ++
        (mk_documents (create_intelligent_chunks_with_ai text filename)
          filename stem userId embed uuid8).map strip_embedding) := by
  have hdocs : mk_documents (create_intelligent_chunks_with_ai text filename)
      filename stem userId embed uuid8 ≠ [] := by
    intro hnil
    apply hchunks
    have := congrArg List.length hnil
    simp [mk_documents] at this
    exact this
  simp only [index_document, if_neg htext, if_neg hchunks, if_neg hdocs, herr]

/-- C3, witness at a concrete failing upload. -/
theorem claim3_witness :
    (¬(("hello world" : String) = "" ∨ pyStrip "hello world" = "")) ∧
    create_intelligent_chunks_with_ai "hello world" "f.pdf" ≠ [] ∧
    index_document (some fun _ => UploadOutcome.err) []
        (.ok "hello world") "f.pdf" "f" none (fun _ => []) (fun _ => "u") =
      (true, (mk_documents (create_intelligent_chunks_with_ai "hello world" "f.pdf")
        "f.pdf" "f" none (fun _ => []) (fun _ => "u")).map strip_embedding) := by
  refine ⟨by decide, by decide, ?_⟩
  have h := claim3_remote_write_failure_falls_back_to_local
    (fun _ => UploadOutcome.err) [] "hello world" "f.pdf" "f" none
    (fun _ => []) (fun _ => "u") (by decide) (by decide) rfl
  simpa using h

/-- C4.  When the primary embedding call fails, `generate_embedding` returns
the hash-derived fallback vector of exactly 1536 entries (the MD5 digest has
16 bytes), and the fallback is a function of the digest alone, so identical
texts — more generally texts with equal digests — give identical vectors. -/
theorem claim4_fallback_embedding_dimension (md5 : String → List Nat)
    (text : String) (h : (md5 text).length = 16) :
    (generate_embedding md5 none text).length = 1536 ∧
    ∀ t2 : String, md5 t2 = md5 text →
      generate_embedding md5 none t2 = generate_embedding md5 none text := by
  constructor
  · show (fallbackEmbedding (md5 text)).length = 1536
    unfold fallbackEmbedding
    rw [List.length_take]
    have h1 : 1 ≤ (List.map (fun (b : Nat) => (b : ℚ) / 255) (md5 text)).length := by
      rw [List.length_map, h]; omega
    have h2 : 1536 ≤ (List.map (fun (b : Nat) => (b : ℚ) / 255) (md5 text)).length + 1536 := by
      omega
    have h3 := padEmbedding_length 1536 _ h1 h2
    exact min_eq_left h3
  · intro t2 ht2
    show fallbackEmbedding (md5 t2) = fallbackEmbedding (md5 text)
    rw [ht2]

/-- C4, witness with a concrete 16-byte digest function. -/
theorem claim4_witness :
    ((fun (_ : String) => List.range 16) "a").length = 16 ∧
    (generate_embedding (fun _ => List.range 16) none "a").length = 1536 ∧
    ∀ t2 : String, (fun (_ : String) => List.range 16) t2 =
        (fun (_ : String) => List.range 16) "a" →
      generate_embedding (fun _ => List.range 16) none t2 =
        generate_embedding (fun _ => List.range 16) none "a" := by
  refine ⟨by decide, ?_, ?_⟩
  · exact (claim4_fallback_embedding_dimension (fun _ => List.range 16) "a" (by decide)).1
  · exact (claim4_fallback_embedding_dimension (fun _ => List.range 16) "a" (by decide)).2

/-- C5.  Every chunk produced by the chunkers is well-formed: `direct_chunk`
chunks satisfy `start_line ≤ end_line` (under a usable configuration, as with
the default `chunk_size = 3000`), and `_create_token_chunks` chunks built from
extracted page data satisfy `line_start ≤ line_end`, `char_start ≤ char_end`
and `token_count ≤ token_chunk_size`. -/
theorem claim5_chunk_invariants (text title : String) (chunkSize : Nat)
    (hcfg : overlapLines chunkSize < linesPerChunk chunkSize)
    (encode : List Char → List Nat) (decode : List Nat → List Char)
    (mkTokenId : Nat → Nat → List Char → String) (tokSize tokOverlap : Nat)
    (blocks : List Block) (pageNum : Nat) :
    (∀ c ∈ direct_chunk text title chunkSize, c.startLine ≤ c.endLine) ∧
    (∀ c ∈ create_token_chunks encode decode mkTokenId tokSize tokOverlap
        (extract_text_with_positions blocks pageNum) pageNum,
      c.lineStart ≤ c.lineEnd ∧ c.charStart ≤ c.charEnd ∧ c.tokenCount ≤ tokSize) :=
  ⟨direct_chunk_line_order text title chunkSize hcfg,
   create_token_chunks_invariants encode decode mkTokenId tokSize tokOverlap
     blocks pageNum⟩

/-- C5, witness at a concrete document, page and tokenizer. -/
theorem claim5_witness :
    overlapLines 3000 < linesPerChunk 3000 ∧
    ((∀ c ∈ direct_chunk "hello world" "Doc" 3000, c.startLine ≤ c.endLine) ∧
     (∀ c ∈ create_token_chunks (fun l => l.map Char.toNat)
          (fun ts => ts.map Char.ofNat) (fun _ _ _ => "id") 500 50
          (extract_text_with_positions
            [⟨some [⟨[⟨"hello world".toList, ⟨0, 0, 1, 1⟩⟩]⟩]⟩] 1) 1,
        c.lineStart ≤ c.lineEnd ∧ c.charStart ≤ c.charEnd ∧ c.tokenCount ≤ 500)) :=
  ⟨by decide,
   claim5_chunk_invariants "hello world" "Doc" 3000 (by decide)
     (fun l => l.map Char.toNat) (fun ts => ts.map Char.ofNat) (fun _ _ _ => "id")
     500 50 [⟨some [⟨[⟨"hello world".toList, ⟨0, 0, 1, 1⟩⟩]⟩]⟩] 1⟩

/-- C9.  For a text split into at least two chunks with positive overlap
(`overlap_lines ≥ 1`, as with the default configuration), every adjacent pair
of chunks `j` and `j + 1` produced by `direct_chunk` satisfies: chunk
`j + 1` starts at or before the line where chunk `j` ends. -/
theorem claim9_adjacent_chunk_overlap (text title : String) (chunkSize : Nat)
    (hov : 1 ≤ overlapLines chunkSize)
    (hcfg : overlapLines chunkSize < linesPerChunk chunkSize)
    (j : Nat) (ci cj : DChunk)
    (hi : (direct_chunk text title chunkSize).get? j = some ci)
    (hj : (direct_chunk text title chunkSize).get? (j + 1) = some cj) :
    cj.startLine ≤ ci.endLine :=
  direct_chunk_adjacent_overlap text title chunkSize hov hcfg j ci cj hi hj

/-- Option whose `isSome` holds is `some` of its default-read value. -/
theorem option_eq_some_getD {α : Type} [Inhabited α] (o : Option α)
    (h : o.isSome = true) : o = some (o.getD default) := by
  cases o with
  | none => simp at h
  | some a => rfl

/-- C9, witness: a 13-line document chunked with `chunk_size = 600` yields two
overlapping chunks. -/
theorem claim9_witness :
    1 ≤ overlapLines 600 ∧ overlapLines 600 < linesPerChunk 600 ∧
    ((direct_chunk "x\nx\nx\nx\nx\nx\nx\nx\nx\nx\nx\nx\nx" "Doc" 600).get? 0).isSome = true ∧
    ((direct_chunk "x\nx\nx\nx\nx\nx\nx\nx\nx\nx\nx\nx\nx" "Doc" 600).get? 1).isSome = true ∧
    (((direct_chunk "x\nx\nx\nx\nx\nx\nx\nx\nx\nx\nx\nx\nx" "Doc" 600).get? 1).getD default).startLine ≤
      (((direct_chunk "x\nx\nx\nx\nx\nx\nx\nx\nx\nx\nx\nx\nx" "Doc" 600).get? 0).getD default).endLine := by
  refine ⟨by decide, by decide, by decide, by decide, ?_⟩
  exact claim9_adjacent_chunk_overlap "x\nx\nx\nx\nx\nx\nx\nx\nx\nx\nx\nx\nx" "Doc" 600
    (by decide) (by decide) 0 _ _
    (option_eq_some_getD _ (by decide)) (option_eq_some_getD _ (by decide))

/-- C10.  When the prepared chunk records are uploaded successfully to the
remote backend, `index_document` leaves the local store untouched and reports
success; since `list_indexed_pdfs` enumerates the local store only, a document
not previously in the local store does not appear in the listing. -/
theorem claim10_listing_only_local_store
    (upload : List IndexedDoc → UploadOutcome) (flags : List Bool)
    (localDocs : List IndexedDoc) (text filename stem : String)
    (userId : Option String) (embed : String → List ℚ) (uuid8 : Nat → String)
    (uid : Option String)
    (htext : ¬(text = "" ∨ pyStrip text = ""))
    (hchunks : create_intelligent_chunks_with_ai text filename ≠ [])
    (hok : upload (mk_documents (create_intelligent_chunks_with_ai text filename)
      filename stem userId embed uuid8) = .ok flags)
    (hsucc : 0 < flags.count true)
    (hnew : filename ∉ localDocs.map (·.filename)) :
    index_document (some upload) localDocs (.ok text) filename stem userId embed uuid8 =
      (true, localDocs) ∧
    filename ∉ (list_indexed_pdfs
      (index_document (some upload) localDocs (.ok text) filename stem userId
        embed uuid8).2 uid).map (·.filename) := by
  have hdocs : mk_documents (create_intelligent_chunks_with_ai text filename)
      filename stem userId embed uuid8 ≠ [] := by
    intro hnil
    apply hchunks
    have := congrArg List.length hnil
    simp [mk_documents] at this
    exact this
  have hres : index_document (some upload) localDocs (.ok text) filename stem
      userId embed uuid8 = (true, localDocs) := by
    simp only [index_document, if_neg htext, if_neg hchunks, if_neg hdocs, hok]
    simp [hsucc]
  refine ⟨hres, ?_⟩
  rw [hres]
  intro hmemname
  obtain ⟨p, hp, hpeq⟩ := List.mem_map.mp hmemname
  have := list_indexed_pdfs_filenames localDocs uid p hp
  rw [hpeq] at this
  exact hnew this

/-- C10, witness at a concrete successful remote upload. -/
theorem claim10_witness :
    (¬(("hello world" : String) = "" ∨ pyStrip "hello world" = "")) ∧
    create_intelligent_chunks_with_ai "hello world" "f.pdf" ≠ [] ∧
    (0 : Nat) < ([true] : List Bool).count true ∧
    ("f.pdf" ∉ ([] : List IndexedDoc).map (·.filename)) ∧
    index_document (some fun _ => UploadOutcome.ok [true]) []
        (.ok "hello world") "f.pdf" "f" none (fun _ => []) (fun _ => "u") =
      (true, []) ∧
    "f.pdf" ∉ (list_indexed_pdfs
      (index_document (some fun _ => UploadOutcome.ok [true]) []
        (.ok "hello world") "f.pdf" "f" none (fun _ => []) (fun _ => "u")).2
      none).map (·.filename) := by
  refine ⟨by decide, by decide, by decide, by decide, ?_⟩
  exact claim10_listing_only_local_store (fun _ => UploadOutcome.ok [true]) [true]
    [] "hello world" "f.pdf" "f" none (fun _ => []) (fun _ => "u") none
    (by decide) (by decide) rfl (by decide) (by decide)

end VoiceRag
